/-
Verification of the logflow log aggregation dashboard (Go).

The Lean definitions below are a shallow embedding of the Go source:
  internal/log/entry.go, internal/log/buffer.go, internal/log/parser.go,
  internal/ipc/protocol.go, internal/ipc/server.go,
  internal/ui/app.go, internal/ui/pane.go.
Go strings are Lean `String`s, Go slices are Lean `List`s, Go maps with
string keys are association lists (`JMap`) or key/value lists looked up by
first match, and Go `time.Time` values are the record `GoTime`.  Stateful
methods become functions from the receiver record to an updated record.
-/
import Mathlib

namespace LogFlow

/-- Character-list prefix test, mirroring the prefix comparison used by
Go `strings.Contains` (first argument: candidate prefix). -/
def startsWithChars : List Char → List Char → Bool
  | [], _ => true
  | _ :: _, [] => false
  | p :: ps, h :: hs => p == h && startsWithChars ps hs

/-- Character-list substring occurrence test: `listContains needle hay` is
true iff `needle` occurs contiguously inside `hay` (Go `strings.Contains`
semantics, including the empty needle matching everything). -/
def listContains (needle : List Char) : List Char → Bool
  | [] => needle.isEmpty
  | c :: rest => startsWithChars needle (c :: rest) || listContains needle rest

/-- Go `strings.Contains s substr`. -/
def strContains (s substr : String) : Bool :=
  listContains substr.data s.data

/-- Go `strings.ToUpper`, character by character. -/
def strToUpper (s : String) : String :=
  ⟨s.data.map Char.toUpper⟩

/-- Go `strings.ToLower`, character by character. -/
def strToLower (s : String) : String :=
  ⟨s.data.map Char.toLower⟩

/-- Go `strings.TrimSpace`: drop whitespace from both ends. -/
def strTrim (s : String) : String :=
  ⟨((s.data.dropWhile Char.isWhitespace).reverse.dropWhile Char.isWhitespace).reverse⟩

/-- Go `time.Time`, reduced to the calendar/clock fields the program reads
and compares.  `offsetMinutes` is the parsed zone offset (0 for `Z`/none). -/
structure GoTime where
  year : Nat
  month : Nat
  day : Nat
  hour : Nat
  minute : Nat
  second : Nat
  nanos : Nat
  offsetMinutes : Int
deriving DecidableEq

/-- Go `interface{}` values stored in string-keyed JSON maps.  The code only
ever inspects such a value with the type assertions `.(string)` and
`.(time.Time)`; every other dynamic type (numbers, booleans, nested
objects, nil) is carried around opaquely as `jother` with a descriptive tag. -/
inductive JValue where
  | jstr (s : String)
  | jtime (t : GoTime)
  | jother (tag : String)
deriving DecidableEq

/-- Go `map[string]interface{}`, as a key/value list; lookups take the first
binding (JSON objects and Go maps have distinct keys). -/
abbrev JMap := List (String × JValue)

/-- First-match lookup in a `JMap` (Go `val, ok := data[field]`). -/
def jget : JMap → String → Option JValue
  | [], _ => none
  | (k, v) :: rest, key => if k = key then some v else jget rest key

/-- Value of the first alias field present in `data`, as in the alias loops
of `normalizeJSONFields` (each loop breaks at the first present field,
whatever the value is). -/
def firstPresent (data : JMap) : List String → Option JValue
  | [] => none
  | f :: fs =>
    match jget data f with
    | some v => some v
    | none => firstPresent data fs

/-- Numeric value of a decimal digit character. -/
def digitVal (c : Char) : Nat := c.toNat - 48

/-- Natural number denoted by a list of decimal digit characters. -/
def natOfDigits (cs : List Char) : Nat :=
  cs.foldl (fun n c => n * 10 + digitVal c) 0

/-- Consume a leading `YYYY-MM-DD` date; returns (year, month, day, rest). -/
def parseDate : List Char → Option (Nat × Nat × Nat × List Char)
  | y1 :: y2 :: y3 :: y4 :: '-' :: m1 :: m2 :: '-' :: d1 :: d2 :: rest =>
    if [y1, y2, y3, y4, m1, m2, d1, d2].all Char.isDigit then
      some (natOfDigits [y1, y2, y3, y4], natOfDigits [m1, m2], natOfDigits [d1, d2], rest)
    else none
  | _ => none

/-- Consume a leading `HH:MM:SS` clock; returns (hour, minute, second, rest). -/
def parseClock : List Char → Option (Nat × Nat × Nat × List Char)
  | h1 :: h2 :: ':' :: n1 :: n2 :: ':' :: s1 :: s2 :: rest =>
    if [h1, h2, n1, n2, s1, s2].all Char.isDigit then
      some (natOfDigits [h1, h2], natOfDigits [n1, n2], natOfDigits [s1, s2], rest)
    else none
  | _ => none

/-- Consume an optional fractional-second field `.d+` (Go's `time.Parse`
accepts one after the seconds even when the layout has none); returns
(nanoseconds, rest). -/
def parseFrac : List Char → Nat × List Char
  | '.' :: c :: rest =>
    if c.isDigit then
      let digits := (c :: rest).takeWhile Char.isDigit
      let rest2 := (c :: rest).dropWhile Char.isDigit
      (natOfDigits ((digits ++ List.replicate 9 '0').take 9), rest2)
    else (0, '.' :: c :: rest)
  | cs => (0, cs)

/-- Consume a trailing RFC3339 zone designator: `Z`, or `+HH:MM` / `-HH:MM`;
returns the offset in minutes.  Must end the string. -/
def parseZone : List Char → Option Int
  | ['Z'] => some 0
  | '+' :: h1 :: h2 :: ':' :: m1 :: m2 :: [] =>
    if [h1, h2, m1, m2].all Char.isDigit then
      some ((natOfDigits [h1, h2] * 60 + natOfDigits [m1, m2] : Nat) : Int)
    else none
  | '-' :: h1 :: h2 :: ':' :: m1 :: m2 :: [] =>
    if [h1, h2, m1, m2].all Char.isDigit then
      some (-((natOfDigits [h1, h2] * 60 + natOfDigits [m1, m2] : Nat) : Int))
    else none
  | _ => none

/-- Go `time.Parse` with layout `time.RFC3339` (and `time.RFC3339Nano`,
whose accepted inputs coincide for parsing): date, `T`, clock, optional
fraction, mandatory zone.  Shape check only: the stricter calendar range
validation done by Go is not modelled, and none of the verified claims
depends on it. -/
def parseRFC3339 (s : String) : Option GoTime := do
  let (y, mo, d, r1) ← parseDate s.data
  match r1 with
  | 'T' :: r2 => do
    let (h, mi, se, r3) ← parseClock r2
    let (ns, r4) := parseFrac r3
    let off ← parseZone r4
    pure ⟨y, mo, d, h, mi, se, ns, off⟩
  | _ => none

/-- Go `time.Parse` with layout `2006-01-02 15:04:05` or its `.000` variant:
date, space, clock, optional fraction, end of input, no zone. -/
def parseSpaceSeparated (s : String) : Option GoTime := do
  let (y, mo, d, r1) ← parseDate s.data
  match r1 with
  | ' ' :: r2 => do
    let (h, mi, se, r3) ← parseClock r2
    let (ns, r4) := parseFrac r3
    match r4 with
    | [] => pure ⟨y, mo, d, h, mi, se, ns, 0⟩
    | _ => none
  | _ => none

/-- Go `time.Parse` with layout `2006-01-02T15:04:05`: date, `T`, clock,
optional fraction, end of input, no zone. -/
def parseTSeparated (s : String) : Option GoTime := do
  let (y, mo, d, r1) ← parseDate s.data
  match r1 with
  | 'T' :: r2 => do
    let (h, mi, se, r3) ← parseClock r2
    let (ns, r4) := parseFrac r3
    match r4 with
    | [] => pure ⟨y, mo, d, h, mi, se, ns, 0⟩
    | _ => none
  | _ => none

namespace Log

/-- Go `log.LogLevel` is a named string type (`type LogLevel string`). -/
abbrev LogLevel := String

/-- Constant `LogLevelDebug` of internal/log/entry.go. -/
def LogLevelDebug : LogLevel := "DEBUG"

/-- Constant `LogLevelInfo` of internal/log/entry.go. -/
def LogLevelInfo : LogLevel := "INFO"

/-- Constant `LogLevelWarn` of internal/log/entry.go. -/
def LogLevelWarn : LogLevel := "WARN"

/-- Constant `LogLevelError` of internal/log/entry.go. -/
def LogLevelError : LogLevel := "ERROR"

/-- Struct `log.LogEntry` of internal/log/entry.go. -/
structure LogEntry where
  Timestamp : GoTime
  Source : String
  Level : LogLevel
  Content : String
  Raw : String
  Metadata : JMap
deriving DecidableEq

/-- Go zero value of `log.LogEntry` (what `make([]LogEntry, size)` fills
the backing slice with). -/
instance : Inhabited LogEntry :=
  ⟨⟨⟨0, 0, 0, 0, 0, 0, 0, 0⟩, "", "", "", "", []⟩⟩

/-- Method `Parser.ParseLevel` of internal/log/parser.go: upper-case the
line, then test the alias substrings in fixed priority order
ERROR > WARN > INFO > DEBUG; default INFO.  (The `Parser` receiver holds
only pre-compiled regular expressions and no mutable state, so the method
is embedded as a plain function.) -/
def ParseLevel (line : String) : LogLevel :=
  let upperLine := strToUpper line
  if strContains upperLine "ERROR" || strContains upperLine "ERR" then
    LogLevelError
  else if strContains upperLine "WARN" || strContains upperLine "WARNING" then
    LogLevelWarn
  else if strContains upperLine "INFO" || strContains upperLine "INFORMATION" then
    LogLevelInfo
  else if strContains upperLine "DEBUG" || strContains upperLine "DBG" then
    LogLevelDebug
  else
    LogLevelInfo

/-- Leading match of the regular expression
`\d\x7b4\x7d-\d\x7b2\x7d-\d\x7b2\x7d[T ]\d\x7b2\x7d:\d\x7b2\x7d:\d\x7b2\x7d`
at the head of the character list, returned as the matched characters. -/
def timestampShapeAt (cs : List Char) : Option (List Char) :=
  match cs with
  | y1 :: y2 :: y3 :: y4 :: '-' :: m1 :: m2 :: '-' :: d1 :: d2 :: sep ::
      h1 :: h2 :: ':' :: n1 :: n2 :: ':' :: s1 :: s2 :: _ =>
    if (sep = 'T' || sep = ' ') &&
        [y1, y2, y3, y4, m1, m2, d1, d2, h1, h2, n1, n2, s1, s2].all Char.isDigit then
      some [y1, y2, y3, y4, '-', m1, m2, '-', d1, d2, sep,
            h1, h2, ':', n1, n2, ':', s1, s2]
    else none
  | _ => none

/-- `timestampPattern.FindString`: leftmost match of the timestamp-shaped
pattern in the line, or `none`. -/
def findTimestampShape : List Char → Option (List Char)
  | [] => none
  | c :: rest =>
    match timestampShapeAt (c :: rest) with
    | some m => some m
    | none => findTimestampShape rest

/-- Alias list `timestampFields` of `normalizeJSONFields`. -/
def timestampFields : List String := ["timestamp", "ts", "time", "@timestamp", "datetime"]

/-- Alias list `messageFields` of `normalizeJSONFields`. -/
def messageFields : List String := ["message", "msg", "text", "content"]

/-- Alias list `levelFields` of `normalizeJSONFields`. -/
def levelFields : List String := ["level", "severity", "priority"]

/-- The `formats` loop of `normalizeJSONFields`: try the fixed layout list
(RFC3339, RFC3339Nano, `2006-01-02 15:04:05`, `2006-01-02T15:04:05`,
`2006-01-02 15:04:05.000`) in order; first successful parse wins. -/
def tryTimestampFormats (timeStr : String) : Option GoTime :=
  match parseRFC3339 timeStr with
  | some ts => some ts
  | none =>
    match parseRFC3339 timeStr with
    | some ts => some ts
    | none =>
      match parseSpaceSeparated timeStr with
      | some ts => some ts
      | none =>
        match parseTSeparated timeStr with
        | some ts => some ts
        | none => parseSpaceSeparated timeStr

/-- Method `Parser.normalizeJSONFields` of internal/log/parser.go.  The
three alias loops produce at most one normalized binding each for
`timestamp`, `message` and `level`; the final loop copies every field of
`data` whose key is not already bound in the result (Go map iteration
order is unspecified; the embedding iterates in list order, which leaves
every lookup of the resulting map unaffected because each key is inserted
at most once). -/
def normalizeJSONFields (data : JMap) : JMap :=
  let tsBinding : JMap :=
    match firstPresent data timestampFields with
    | some (JValue.jstr timeStr) =>
      match tryTimestampFormats timeStr with
      | some ts => [("timestamp", JValue.jtime ts)]
      | none => []
    | _ => []
  let msgBinding : JMap :=
    match firstPresent data messageFields with
    | some v => [("message", v)]
    | none => []
  let lvlBinding : JMap :=
    match firstPresent data levelFields with
    | some v => [("level", v)]
    | none => []
  let result := tsBinding ++ msgBinding ++ lvlBinding
  data.foldl (fun acc kv => if (jget acc kv.1).isSome then acc else acc ++ [kv]) result

/-- Method `Parser.ParseStructured` of internal/log/parser.go.  JSON
deserialization (`encoding/json.Unmarshal`) is external library code; the
embedding takes it as the oracle argument `unmarshal`, which returns the
parsed object of a line or `none` when unmarshalling fails.  The Go method
always returns a non-nil map (the fallback allocates one), so the result
type is `JMap`, not `Option JMap`. -/
def ParseStructured (unmarshal : String → Option JMap) (line : String) : JMap :=
  if startsWithChars [Char.ofNat 123] (strTrim line).data then
    match unmarshal line with
    | some jsonData => normalizeJSONFields jsonData
    | none => fallbackTimestampScan line
  else fallbackTimestampScan line
where
  /-- The non-JSON fallback of `ParseStructured`: scan the line with the
  timestamp-shaped pattern and parse a match with the two layouts
  `2006-01-02 15:04:05` and `2006-01-02T15:04:05`. -/
  fallbackTimestampScan (line : String) : JMap :=
    match findTimestampShape line.data with
    | some matched =>
      let matchStr : String := ⟨matched⟩
      match parseSpaceSeparated matchStr with
      | some ts => [("timestamp", JValue.jtime ts)]
      | none =>
        match parseTSeparated matchStr with
        | some ts => [("timestamp", JValue.jtime ts)]
        | none => []
    | none => []

/-- Function `NewLogEntry` of internal/log/entry.go.  `now` stands for
`time.Now()` and `unmarshal` for `encoding/json.Unmarshal` (see
`ParseStructured`).  The Go guard `structured != nil` always succeeds
because `ParseStructured` never returns nil. -/
def NewLogEntry (unmarshal : String → Option JMap) (now : GoTime)
    (source rawLine : String) : LogEntry :=
  let structured := ParseStructured unmarshal rawLine
  let timestamp :=
    match jget structured "timestamp" with
    | some (JValue.jtime t) => t
    | _ => now
  let content :=
    match jget structured "message" with
    | some (JValue.jstr msg) => msg
    | _ => rawLine
  let metadata :=
    structured.filter (fun kv => kv.1 ≠ "timestamp" && kv.1 ≠ "message" && kv.1 ≠ "level")
  { Timestamp := timestamp
    Source := source
    Level := ParseLevel rawLine
    Content := content
    Raw := rawLine
    Metadata := metadata }

/-- Struct `log.Buffer` of internal/log/buffer.go, minus its `sync.RWMutex`
(the mutex guards the fields but carries no data; all operations are
embedded as atomic functions on this record). -/
structure Buffer (α : Type) where
  entries : List α
  size : Nat
  index : Nat
  count : Nat
deriving DecidableEq

/-- Function `NewBuffer` of internal/log/buffer.go: `make([]LogEntry, size)`
fills the backing store with zero values. -/
def NewBuffer (α : Type) [Inhabited α] (size : Nat) : Buffer α :=
  { entries := List.replicate size default, size := size, index := 0, count := 0 }

/-- Method `Buffer.Add`: write at the cursor, advance it modulo the size,
and saturate the count at the size. -/
def Buffer.Add (b : Buffer α) (entry : α) : Buffer α :=
  { b with
    entries := b.entries.set b.index entry
    index := (b.index + 1) % b.size
    count := if b.count < b.size then b.count + 1 else b.count }

/-- Method `Buffer.GetAll`: all entries in chronological order, stitching
the two physical segments when the store has wrapped. -/
def Buffer.GetAll (b : Buffer α) : List α :=
  if b.count = 0 then []
  else if b.count < b.size then b.entries.take b.count
  else b.entries.drop b.index ++ b.entries.take b.index

/-- Method `Buffer.GetRecent`: suffix of `GetAll` of length at most `n`. -/
def Buffer.GetRecent (b : Buffer α) (n : Nat) : List α :=
  let all := b.GetAll
  if all.length ≤ n then all else all.drop (all.length - n)

/-- Method `Buffer.Clear`: reset count and cursor, keep the backing store. -/
def Buffer.Clear (b : Buffer α) : Buffer α :=
  { b with count := 0, index := 0 }

/-- Method `Buffer.Count`. -/
def Buffer.Count (b : Buffer α) : Nat := b.count

/-- The `levelOrder` map literal built inside `Buffer.Filter`; a Go map
lookup yields the zero value 0 for any key outside the four literals. -/
def levelOrder (l : LogLevel) : Nat :=
  if l = LogLevelDebug then 0
  else if l = LogLevelInfo then 1
  else if l = LogLevelWarn then 2
  else if l = LogLevelError then 3
  else 0

/-- Method `Buffer.Filter`: chronological subsequence of `GetAll` whose
severity rank is at least the rank of `minLevel`. -/
def Buffer.Filter (b : Buffer LogEntry) (minLevel : LogLevel) : List LogEntry :=
  b.GetAll.filter (fun entry => levelOrder minLevel ≤ levelOrder entry.Level)

/-- Method `Buffer.Search`: case-insensitive substring match against
content or raw text, in chronological order. -/
def Buffer.Search (b : Buffer LogEntry) (term : String) : List LogEntry :=
  b.GetAll.filter (fun entry =>
    strContains (strToLower entry.Content) (strToLower term) ||
    strContains (strToLower entry.Raw) (strToLower term))

/-- Iterated `Buffer.Add` over a list of entries, in order. -/
def Buffer.AddAll (b : Buffer α) (es : List α) : Buffer α :=
  es.foldl Buffer.Add b

end Log

namespace IPC

/-- Go `ipc.MessageType` constants of internal/ipc/protocol.go. -/
inductive MessageType where
  | MessageTypeLog
  | MessageTypeSourceInit
  | MessageTypeSourceExit
  | MessageTypePing
  | MessageTypePong
deriving DecidableEq

/-- Struct `ipc.LogEntry` of internal/ipc/protocol.go (same fields as
`log.LogEntry`; `ipc.LogLevel` is again a named string type). -/
structure LogEntry where
  Timestamp : GoTime
  Source : String
  Level : String
  Content : String
  Raw : String
  Metadata : JMap
deriving DecidableEq

/-- Struct `ipc.SourceInfo` of internal/ipc/protocol.go (the Go field
`Type` is spelled `SourceType` here because `Type` is reserved in Lean). -/
structure SourceInfo where
  Name : String
  SourceType : String
deriving DecidableEq

/-- Struct `ipc.IPCMessage` of internal/ipc/protocol.go (the Go field
`Type` is spelled `MsgType` here because `Type` is reserved in Lean);
pointer fields become options. -/
structure IPCMessage where
  MsgType : MessageType
  LogEntry : Option LogEntry
  SourceInfo : Option SourceInfo
  Error : String
deriving DecidableEq

/-- Capacity of the aggregator queue: `make(chan *LogEntry, 1000)` in
`NewServer` (internal/ipc/server.go). -/
def logChanCapacity : Nat := 1000

/-- The non-blocking send in `Server.handleClient`:
a `select` with a `default` arm on the buffered channel `s.logChan`
appends when the buffer holds fewer than `logChanCapacity` entries and
silently drops the new entry otherwise.  The channel contents are the
FIFO list of queued entries, oldest first. -/
def enqueueLog (logChan : List LogEntry) (entry : LogEntry) : List LogEntry :=
  if logChan.length < logChanCapacity then logChan ++ [entry] else logChan

/-- The message dispatch of `Server.handleClient` for one well-formed
message: only `log` messages carrying a non-nil entry touch the queue;
`source_init` and `source_exit` (and any other type) leave it unchanged. -/
def handleClientMessage (logChan : List LogEntry) (msg : IPCMessage) : List LogEntry :=
  match msg.MsgType with
  | MessageType.MessageTypeLog =>
    match msg.LogEntry with
    | some entry => enqueueLog logChan entry
    | none => logChan
  | _ => logChan

/-- Function `NewLogMessage` of internal/ipc/protocol.go. -/
def NewLogMessage (entry : LogEntry) : IPCMessage :=
  { MsgType := MessageType.MessageTypeLog, LogEntry := some entry,
    SourceInfo := none, Error := "" }

end IPC

namespace UI

open Log

/-- Go `ui.LayoutMode` constants of internal/ui/app.go. -/
inductive LayoutMode where
  | LayoutHorizontal
  | LayoutVertical
  | LayoutAutoGrid
deriving DecidableEq

/-- Go `ui.ViewMode` constants of internal/ui/app.go. -/
inductive ViewMode where
  | ViewMultiPane
  | ViewZoomed
deriving DecidableEq

/-- Go `ui.SearchMode` constants of internal/ui/app.go. -/
inductive SearchMode where
  | SearchNone
  | SearchLocal
  | SearchGlobal
deriving DecidableEq

/-- Struct `ui.SearchResult` of internal/ui/app.go. -/
structure SearchResult where
  PaneName : String
  Entry : LogEntry
  Index : Int
deriving DecidableEq

/-- Struct `ui.Pane` of internal/ui/pane.go (display-side fields included;
the rendering methods that only produce strings are not modelled). -/
structure Pane where
  name : String
  buffer : Buffer LogEntry
  scrollPos : Int
  width : Int
  height : Int
  focused : Bool
  lastSearch : String
deriving DecidableEq

/-- Function `NewPane` of internal/ui/pane.go; unmentioned fields take Go
zero values. -/
def NewPane (name : String) (bufferSize : Nat) : Pane :=
  { name := name, buffer := NewBuffer LogEntry bufferSize,
    scrollPos := 0, width := 0, height := 0, focused := false, lastSearch := "" }

/-- Method `Pane.AddEntry`. -/
def Pane.AddEntry (p : Pane) (entry : LogEntry) : Pane :=
  { p with buffer := p.buffer.Add entry }

/-- Method `Pane.ScrollDown` of internal/ui/pane.go. -/
def Pane.ScrollDown (p : Pane) : Pane :=
  let entries := p.buffer.GetAll
  let maxScroll0 : Int := (entries.length : Int) - (p.height - 2)
  let maxScroll : Int := if maxScroll0 < 0 then 0 else maxScroll0
  if p.scrollPos < maxScroll then { p with scrollPos := p.scrollPos + 1 } else p

/-- Method `Pane.ScrollUp` of internal/ui/pane.go. -/
def Pane.ScrollUp (p : Pane) : Pane :=
  if p.scrollPos > 0 then { p with scrollPos := p.scrollPos - 1 } else p

/-- Method `Pane.Clear` of internal/ui/pane.go. -/
def Pane.Clear (p : Pane) : Pane :=
  { p with buffer := p.buffer.Clear, scrollPos := 0 }

/-- Method `Pane.Search` of internal/ui/pane.go (records the term, returns
the buffer matches; the updated pane comes first). -/
def Pane.Search (p : Pane) (term : String) : Pane × List LogEntry :=
  ({ p with lastSearch := term }, p.buffer.Search term)

/-- First-match lookup in the pane map `map[string]*Pane` (Go map reads). -/
def mapGet (m : List (String × Pane)) (key : String) : Option Pane :=
  match m with
  | [] => none
  | (k, v) :: rest => if k = key then some v else mapGet rest key

/-- In-place update of the pane stored under `key` (Go panes are pointers:
mutating a looked-up pane mutates the map entry). -/
def mapSet (m : List (String × Pane)) (key : String) (f : Pane → Pane) :
    List (String × Pane) :=
  match m with
  | [] => []
  | (k, v) :: rest => if k = key then (k, f v) :: rest else (k, v) :: mapSet rest key f

/-- Struct `ui.App` of internal/ui/app.go (the `server` handle and the
`styles` record carry no dashboard state and are not modelled; the Go map
`panes` is an association list aligned with pointer semantics via
`mapSet`). -/
structure App where
  panes : List (String × Pane)
  paneOrder : List String
  layout : LayoutMode
  viewMode : ViewMode
  focusedPane : Int
  zoomedPane : Int
  searchMode : SearchMode
  searchQuery : String
  searchResults : List SearchResult
  filterLevel : LogLevel
  followMode : Bool
  paused : Bool
  width : Int
  height : Int
deriving DecidableEq

/-- Function `NewApp` of internal/ui/app.go; unmentioned fields take Go
zero values. -/
def NewApp : App :=
  { panes := [], paneOrder := [], layout := LayoutMode.LayoutVertical,
    viewMode := ViewMode.ViewMultiPane, focusedPane := 0, zoomedPane := 0,
    searchMode := SearchMode.SearchNone, searchQuery := "", searchResults := [],
    filterLevel := LogLevelDebug, followMode := true, paused := false,
    width := 0, height := 0 }

/-- Method `App.updateLayout` of internal/ui/app.go: its body is empty (a
placeholder comment), so it is the identity on the state. -/
def App.updateLayout (a : App) : App := a

/-- Method `App.cycleLayout`: Horizontal to Vertical to AutoGrid and back. -/
def App.cycleLayout (a : App) : App :=
  let a2 :=
    { a with layout :=
        match a.layout with
        | LayoutMode.LayoutHorizontal => LayoutMode.LayoutVertical
        | LayoutMode.LayoutVertical => LayoutMode.LayoutAutoGrid
        | LayoutMode.LayoutAutoGrid => LayoutMode.LayoutHorizontal }
  a2.updateLayout

/-- Method `App.nextPane`: advance the focus circularly (`%` is Go's
truncated remainder, `Int.tmod`). -/
def App.nextPane (a : App) : App :=
  if 0 < a.paneOrder.length then
    { a with focusedPane := Int.tmod (a.focusedPane + 1) (a.paneOrder.length : Int) }
  else a

/-- Method `App.prevPane`: move the focus back circularly. -/
def App.prevPane (a : App) : App :=
  if 0 < a.paneOrder.length then
    { a with focusedPane :=
        Int.tmod (a.focusedPane - 1 + (a.paneOrder.length : Int)) (a.paneOrder.length : Int) }
  else a

/-- Method `App.scrollDown`: scroll the focused pane (a missing pane is a
no-op, mirroring the `pane != nil` guard).  `a.paneOrder[a.focusedPane]`
panics in Go when the index is out of range; reachable states keep it in
range, and the embedding totalizes the read with an empty default name. -/
def App.scrollDown (a : App) : App :=
  if 0 < a.paneOrder.length then
    let paneName := a.paneOrder.getD a.focusedPane.toNat ""
    match mapGet a.panes paneName with
    | some _ => { a with panes := mapSet a.panes paneName Pane.ScrollDown }
    | none => a
  else a

/-- Method `App.scrollUp` (same shape as `App.scrollDown`). -/
def App.scrollUp (a : App) : App :=
  if 0 < a.paneOrder.length then
    let paneName := a.paneOrder.getD a.focusedPane.toNat ""
    match mapGet a.panes paneName with
    | some _ => { a with panes := mapSet a.panes paneName Pane.ScrollUp }
    | none => a
  else a

/-- Method `App.clearFocusedPane`: clear the focused pane's buffer and
scroll offset. -/
def App.clearFocusedPane (a : App) : App :=
  if 0 < a.paneOrder.length then
    let paneName := a.paneOrder.getD a.focusedPane.toNat ""
    match mapGet a.panes paneName with
    | some _ => { a with panes := mapSet a.panes paneName Pane.Clear }
    | none => a
  else a

/-- Method `App.performSearch` of internal/ui/app.go: resets
`searchResults` to an empty slice; the per-pane search bodies are
placeholder comments with no effect. -/
def App.performSearch (a : App) : App :=
  { a with searchResults := [] }

/-- Method `App.handleSearchInput` of internal/ui/app.go: Enter commits
(and leaves search mode), Escape aborts and discards the query, Backspace
deletes the last byte, any single-byte key is appended to the query, and
every other key is ignored.  `len(msg.String()) == 1` is a byte-length
test, embedded as `String.utf8ByteSize`. -/
def App.handleSearchInput (a : App) (key : String) : App :=
  if key = "enter" then
    { a.performSearch with searchMode := SearchMode.SearchNone }
  else if key = "esc" then
    { a with searchMode := SearchMode.SearchNone, searchQuery := "" }
  else if key = "backspace" then
    if 0 < a.searchQuery.length then
      { a with searchQuery := ⟨a.searchQuery.data.dropLast⟩ }
    else a
  else if key.utf8ByteSize = 1 then
    { a with searchQuery := a.searchQuery ++ key }
  else a

/-- Method `App.handleKeyPress` of internal/ui/app.go.  The returned flag
records whether `tea.Quit` was issued.  The Go `switch` on the key string
is embedded with first-match semantics; its second `case "l"` (vim
navigation) is shadowed by the first (layout cycling) and therefore does
not appear. -/
def App.handleKeyPress (a : App) (key : String) : App × Bool :=
  if key = "q" || key = "ctrl+c" then (a, true)
  else if a.searchMode ≠ SearchMode.SearchNone then (a.handleSearchInput key, false)
  else if key = "l" then (a.cycleLayout, false)
  else if key = "z" then
    let a2 :=
      if a.viewMode = ViewMode.ViewMultiPane ∧ 0 < a.paneOrder.length then
        { a with viewMode := ViewMode.ViewZoomed, zoomedPane := a.focusedPane }
      else if a.viewMode = ViewMode.ViewZoomed then
        { a with viewMode := ViewMode.ViewMultiPane }
      else a
    (a2.updateLayout, false)
  else if key = "tab" then (a.nextPane, false)
  else if key = "shift+tab" then (a.prevPane, false)
  else if key = "h" then
    (if a.layout = LayoutMode.LayoutVertical then a.prevPane else a, false)
  else if key = "j" then
    (if a.layout = LayoutMode.LayoutHorizontal then a.nextPane else a.scrollDown, false)
  else if key = "k" then
    (if a.layout = LayoutMode.LayoutHorizontal then a.prevPane else a.scrollUp, false)
  else if key = "1" ∨ key = "2" ∨ key = "3" ∨ key = "4" ∨ key = "5" ∨
      key = "6" ∨ key = "7" ∨ key = "8" ∨ key = "9" then
    let paneNum : Int := ((key.data.headD '1').toNat : Int) - ('1'.toNat : Int)
    if paneNum < (a.paneOrder.length : Int) then
      let a2 := if a.viewMode = ViewMode.ViewZoomed then { a with zoomedPane := paneNum } else a
      ({ a2 with focusedPane := paneNum }.updateLayout, false)
    else (a, false)
  else if key = "/" then
    ({ a with searchMode := SearchMode.SearchLocal, searchQuery := "" }, false)
  else if key = "ctrl+/" ∨ key = "?" then
    ({ a with searchMode := SearchMode.SearchGlobal, searchQuery := "" }, false)
  else if key = "e" then ({ a with filterLevel := LogLevelError }, false)
  else if key = "w" then ({ a with filterLevel := LogLevelWarn }, false)
  else if key = "i" then ({ a with filterLevel := LogLevelInfo }, false)
  else if key = "a" then ({ a with filterLevel := LogLevelDebug }, false)
  else if key = " " then ({ a with paused := !a.paused }, false)
  else if key = "f" then ({ a with followMode := !a.followMode }, false)
  else if key = "c" then (a.clearFocusedPane, false)
  else (a, false)

/-- Method `App.handleLogEntry` of internal/ui/app.go: look up or lazily
create the pane for the entry's source (appending its name to the pane
order), convert the IPC entry fieldwise to a `log.LogEntry`, and add it to
that pane's buffer unless the dashboard is paused. -/
def App.handleLogEntry (a : App) (entry : LogFlow.IPC.LogEntry) : App :=
  let a1 :=
    if (mapGet a.panes entry.Source).isSome then a
    else
      { a with
        panes := a.panes ++ [(entry.Source, NewPane entry.Source 1000)],
        paneOrder := a.paneOrder ++ [entry.Source] }.updateLayout
  let logEntry : LogEntry :=
    { Timestamp := entry.Timestamp, Source := entry.Source, Level := entry.Level,
      Content := entry.Content, Raw := entry.Raw, Metadata := entry.Metadata }
  if a1.paused then a1
  else { a1 with panes := mapSet a1.panes entry.Source (fun p => p.AddEntry logEntry) }

/-- Iterated `App.handleLogEntry` over a list of incoming entries. -/
def App.processLogEntries (a : App) (es : List LogFlow.IPC.LogEntry) : App :=
  es.foldl App.handleLogEntry a

/-- First-seen-order deduplication of a name sequence: the pane order that
lazy pane creation produces. -/
def firstSeenOrder (names : List String) : List String :=
  names.foldl (fun acc s => if s ∈ acc then acc else acc ++ [s]) []

end UI

namespace Log

/-- Well-formedness of a ring buffer state, as established by `NewBuffer`
with a positive size and preserved by every `Add`: the backing store keeps
its allocated length, the cursor stays in range, the count is bounded by
the size, and before the first wrap the cursor equals the count. -/
structure BufferWF (b : Buffer α) : Prop where
  size_pos : 0 < b.size
  len_entries : b.entries.length = b.size
  index_lt : b.index < b.size
  count_le : b.count ≤ b.size
  index_eq : b.count < b.size → b.index = b.count

end Log

/-- The raw JSON line of the spec's classification scenario.  (`\x7b` and
`\x7d` are the brace characters.) -/
def jsonScenarioLine : String :=
  "\x7b\"level\":\"warn\",\"msg\":\"cache miss\",\"ts\":\"2024-01-01T00:00:00Z\"\x7d"

/-- The object `encoding/json.Unmarshal` produces for `jsonScenarioLine`
(Go decodes every JSON string value to a Go string). -/
def jsonScenarioData : JMap :=
  [("level", JValue.jstr "warn"),
   ("msg", JValue.jstr "cache miss"),
   ("ts", JValue.jstr "2024-01-01T00:00:00Z")]

/-- Unmarshal oracle for the scenario: decodes `jsonScenarioLine` to
`jsonScenarioData` and fails elsewhere (only the scenario line is ever
passed to it). -/
def jsonScenarioUnmarshal : String → Option JMap :=
  fun s => if s = jsonScenarioLine then some jsonScenarioData else none

/-- An arbitrary wall-clock instant standing for `time.Now()` in the
scenario; the parsed `ts` field overrides it. -/
def jsonScenarioNow : GoTime := ⟨2030, 6, 7, 8, 9, 10, 0, 0⟩

/-- The `LogEntry` the scenario produces:
`NewLogEntry("svc", jsonScenarioLine)`. -/
def jsonScenarioEntry : Log.LogEntry :=
  Log.NewLogEntry jsonScenarioUnmarshal jsonScenarioNow "svc" jsonScenarioLine

/-- A concrete IPC log entry used to instantiate universally quantified
theorems. -/
def sampleIPCEntry (source content : String) : IPC.LogEntry :=
  { Timestamp := ⟨2024, 1, 1, 0, 0, 0, 0, 0⟩, Source := source,
    Level := "INFO", Content := content, Raw := content, Metadata := [] }

/-- A concrete log entry whose level string is not one of the four
recognized levels. -/
def traceEntry : Log.LogEntry :=
  { Timestamp := ⟨2024, 1, 1, 0, 0, 0, 0, 0⟩, Source := "svc",
    Level := "TRACE", Content := "trace line", Raw := "trace line", Metadata := [] }

/-- A concrete buffer holding only `traceEntry`. -/
def unknownLevelBuffer : Log.Buffer Log.LogEntry :=
  (Log.NewBuffer Log.LogEntry 2).AddAll [traceEntry]

/-- A concrete dashboard state sitting in local search mode. -/
def searchModeApp : UI.App :=
  { UI.NewApp with searchMode := UI.SearchMode.SearchLocal, searchQuery := "err" }

/-- A concrete dashboard state that is paused. -/
def pausedApp : UI.App :=
  { UI.NewApp with paused := true }

section BasicLemmas

open Log IPC UI

/-- The empty needle occurs in every haystack (Go `strings.Contains s ""`). -/
lemma listContains_nil (hay : List Char) : listContains [] hay = true := by
  cases hay <;> simp [listContains, startsWithChars]

/-- Severity rank of the DEBUG literal. -/
lemma levelOrder_debug : Log.levelOrder Log.LogLevelDebug = 0 := rfl

/-- Severity rank of the INFO literal. -/
lemma levelOrder_info : Log.levelOrder Log.LogLevelInfo = 1 := rfl

/-- Severity rank of the WARN literal. -/
lemma levelOrder_warn : Log.levelOrder Log.LogLevelWarn = 2 := rfl

/-- Severity rank of the ERROR literal. -/
lemma levelOrder_error : Log.levelOrder Log.LogLevelError = 3 := rfl

/-- Raising the severity floor refines the filtered subsequence. -/
lemma filter_rank_mono (b : Buffer Log.LogEntry) (l1 l2 : LogLevel)
    (h : levelOrder l2 ≤ levelOrder l1) :
    (b.Filter l1).Sublist (b.Filter l2) := by
  unfold Buffer.Filter
  refine List.monotone_filter_right _ (fun e he => ?_)
  simp only [decide_eq_true_eq] at he ⊢
  omega

end BasicLemmas

section ClaimTheorems

open Log IPC UI

/-- C4: the severity filter is monotone in the floor: ERROR refines WARN
refines INFO refines DEBUG, the DEBUG filter is the unfiltered snapshot,
and every filter result is the chronological subsequence of entries whose
rank (DEBUG 0 < INFO 1 < WARN 2 < ERROR 3) is at least the floor's rank. -/
theorem filter_severity_monotone (b : Buffer Log.LogEntry) :
    (b.Filter LogLevelError).Sublist (b.Filter LogLevelWarn) ∧
    (b.Filter LogLevelWarn).Sublist (b.Filter LogLevelInfo) ∧
    (b.Filter LogLevelInfo).Sublist (b.Filter LogLevelDebug) ∧
    b.Filter LogLevelDebug = b.GetAll ∧
    (∀ minLevel, b.Filter minLevel =
      b.GetAll.filter (fun e => levelOrder minLevel ≤ levelOrder e.Level)) := by
  refine ⟨filter_rank_mono b _ _ (by decide), filter_rank_mono b _ _ (by decide),
    filter_rank_mono b _ _ (by decide), ?_, fun _ => rfl⟩
  unfold Buffer.Filter
  refine List.filter_eq_self.mpr (fun e _ => ?_)
  simp only [levelOrder_debug, decide_eq_true_eq]
  exact Nat.zero_le _

/-- C2: the aggregator queue has fixed capacity 1000 and a non-blocking,
drop-newest enqueue: at capacity the arriving entry is discarded and the
queued entries stay untouched; below capacity the entry is appended FIFO. -/
theorem aggregator_queue_bounds (q : List IPC.LogEntry) (e : IPC.LogEntry) :
    logChanCapacity = 1000 ∧
    (q.length = logChanCapacity →
      enqueueLog q e = q ∧ handleClientMessage q (NewLogMessage e) = q) ∧
    (q.length < logChanCapacity → enqueueLog q e = q ++ [e]) := by
  refine ⟨rfl, fun hfull => ?_, fun hlt => ?_⟩
  · have h : ¬ q.length < logChanCapacity := by omega
    exact ⟨by simp [enqueueLog, h], by simp [handleClientMessage, NewLogMessage, enqueueLog, h]⟩
  · simp [enqueueLog, hlt]

/-- Witness for C2 at a concrete full queue: 1000 queued entries, the
1001st arrival is dropped and the queue is unchanged. -/
theorem aggregator_queue_bounds_witness :
    (List.replicate 1000 (sampleIPCEntry "a" "x")).length = logChanCapacity ∧
    enqueueLog (List.replicate 1000 (sampleIPCEntry "a" "x")) (sampleIPCEntry "b" "y")
      = List.replicate 1000 (sampleIPCEntry "a" "x") := by
  have hlen : (List.replicate 1000 (sampleIPCEntry "a" "x")).length = logChanCapacity := by
    simp only [List.length_replicate, logChanCapacity]
  exact ⟨hlen, ((aggregator_queue_bounds _ _).2.1 hlen).1⟩

/-- C8: `Search` keeps chronological order (it is a subsequence of the
snapshot), an entry is in the result exactly when it is in the snapshot
and its content or raw text contains the term case-insensitively (so a
term matching no entry yields the empty result), and the empty term
matches every entry. -/
theorem search_characterization (b : Buffer Log.LogEntry) (term : String) :
    (b.Search term).Sublist b.GetAll ∧
    (∀ e, e ∈ b.Search term ↔ e ∈ b.GetAll ∧
      (strContains (strToLower e.Content) (strToLower term) ||
       strContains (strToLower e.Raw) (strToLower term)) = true) ∧
    b.Search "" = b.GetAll := by
  refine ⟨?_, fun e => ?_, ?_⟩
  · unfold Buffer.Search
    exact List.filter_sublist _
  · unfold Buffer.Search
    simp [List.mem_filter]
  · unfold Buffer.Search
    refine List.filter_eq_self.mpr (fun e _ => ?_)
    have hempty : strToLower "" = "" := rfl
    rw [hempty]
    have h1 : strContains (strToLower e.Content) "" = true := listContains_nil _
    simp [h1]

/-- C10: an entry level outside the four literals ranks 0, as does an
unrecognized floor; filtering by an unrecognized floor returns every
entry, an unknown-level entry is in the DEBUG filter exactly when it is
in the snapshot, and it never survives the INFO, WARN or ERROR filters. -/
theorem unknown_level_filter (b : Buffer Log.LogEntry) (lv : LogLevel) (e : Log.LogEntry)
    (hlv : lv ∉ [LogLevelDebug, LogLevelInfo, LogLevelWarn, LogLevelError])
    (he : e.Level ∉ [LogLevelDebug, LogLevelInfo, LogLevelWarn, LogLevelError]) :
    levelOrder lv = 0 ∧ levelOrder e.Level = 0 ∧
    b.Filter lv = b.GetAll ∧
    (e ∈ b.Filter LogLevelDebug ↔ e ∈ b.GetAll) ∧
    e ∉ b.Filter LogLevelInfo ∧ e ∉ b.Filter LogLevelWarn ∧
    e ∉ b.Filter LogLevelError := by
  simp only [List.mem_cons, List.not_mem_nil, or_false, not_or] at hlv he
  obtain ⟨hl1, hl2, hl3, hl4⟩ := hlv
  obtain ⟨he1, he2, he3, he4⟩ := he
  have hlv0 : levelOrder lv = 0 := by
    simp [levelOrder, hl1, hl2, hl3, hl4]
  have he0 : levelOrder e.Level = 0 := by
    simp [levelOrder, he1, he2, he3, he4]
  refine ⟨hlv0, he0, ?_, ?_, ?_, ?_, ?_⟩
  · unfold Buffer.Filter
    refine List.filter_eq_self.mpr (fun a _ => ?_)
    simp [hlv0]
  · unfold Buffer.Filter
    simp [List.mem_filter, levelOrder_debug]
  · unfold Buffer.Filter
    simp [List.mem_filter, he0, levelOrder_info]
  · unfold Buffer.Filter
    simp [List.mem_filter, he0, levelOrder_warn]
  · unfold Buffer.Filter
    simp [List.mem_filter, he0, levelOrder_error]

/-- Witness for C10 at the concrete floor FATAL and the concrete entry
`traceEntry` (level TRACE) stored in `unknownLevelBuffer`. -/
theorem unknown_level_filter_witness :
    ("FATAL" : LogLevel) ∉ [LogLevelDebug, LogLevelInfo, LogLevelWarn, LogLevelError] ∧
    traceEntry.Level ∉ [LogLevelDebug, LogLevelInfo, LogLevelWarn, LogLevelError] ∧
    (levelOrder "FATAL" = 0 ∧ levelOrder traceEntry.Level = 0 ∧
     unknownLevelBuffer.Filter "FATAL" = unknownLevelBuffer.GetAll ∧
     (traceEntry ∈ unknownLevelBuffer.Filter LogLevelDebug ↔
       traceEntry ∈ unknownLevelBuffer.GetAll) ∧
     traceEntry ∉ unknownLevelBuffer.Filter LogLevelInfo ∧
     traceEntry ∉ unknownLevelBuffer.Filter LogLevelWarn ∧
     traceEntry ∉ unknownLevelBuffer.Filter LogLevelError) :=
  ⟨by decide, by decide,
   unknown_level_filter unknownLevelBuffer "FATAL" traceEntry (by decide) (by decide)⟩

/-- C7: severity classification tests case-folded alias substrings in the
fixed priority order ERROR > WARN > INFO > DEBUG, defaults to INFO when
nothing matches, and always produces one of the four levels. -/
theorem parse_level_priority (line : String) :
    (ParseLevel line = LogLevelError ↔
      (strContains (strToUpper line) "ERROR" || strContains (strToUpper line) "ERR") = true) ∧
    (ParseLevel line = LogLevelWarn ↔
      ((strContains (strToUpper line) "ERROR" || strContains (strToUpper line) "ERR") = false ∧
       (strContains (strToUpper line) "WARN" || strContains (strToUpper line) "WARNING") = true)) ∧
    (ParseLevel line = LogLevelInfo ↔
      ((strContains (strToUpper line) "ERROR" || strContains (strToUpper line) "ERR") = false ∧
       (strContains (strToUpper line) "WARN" || strContains (strToUpper line) "WARNING") = false ∧
       ((strContains (strToUpper line) "INFO" || strContains (strToUpper line) "INFORMATION") = true ∨
        (strContains (strToUpper line) "DEBUG" || strContains (strToUpper line) "DBG") = false))) ∧
    (ParseLevel line = LogLevelDebug ↔
      ((strContains (strToUpper line) "ERROR" || strContains (strToUpper line) "ERR") = false ∧
       (strContains (strToUpper line) "WARN" || strContains (strToUpper line) "WARNING") = false ∧
       (strContains (strToUpper line) "INFO" || strContains (strToUpper line) "INFORMATION") = false ∧
       (strContains (strToUpper line) "DEBUG" || strContains (strToUpper line) "DBG") = true)) ∧
    (ParseLevel line = LogLevelError ∨ ParseLevel line = LogLevelWarn ∨
     ParseLevel line = LogLevelInfo ∨ ParseLevel line = LogLevelDebug) := by
  have hPL : ParseLevel line =
      (if (strContains (strToUpper line) "ERROR" || strContains (strToUpper line) "ERR") = true then
        LogLevelError
      else if (strContains (strToUpper line) "WARN" || strContains (strToUpper line) "WARNING") = true then
        LogLevelWarn
      else if (strContains (strToUpper line) "INFO" || strContains (strToUpper line) "INFORMATION") = true then
        LogLevelInfo
      else if (strContains (strToUpper line) "DEBUG" || strContains (strToUpper line) "DBG") = true then
        LogLevelDebug
      else LogLevelInfo) := rfl
  rw [hPL]
  cases h1 : strContains (strToUpper line) "ERROR" || strContains (strToUpper line) "ERR" <;>
    cases h2 : strContains (strToUpper line) "WARN" || strContains (strToUpper line) "WARNING" <;>
      cases h3 : strContains (strToUpper line) "INFO" || strContains (strToUpper line) "INFORMATION" <;>
        cases h4 : strContains (strToUpper line) "DEBUG" || strContains (strToUpper line) "DBG" <;>
          decide

/-- Counterexample to C6 as stated: in local search mode the printable key
`q` does not append to the query (the claim's search-editing behavior for
a printable character); the global quit check intercepts it first, leaving
the query untouched and issuing the quit command — a key command that is
not suppressed by search mode. -/
theorem search_mode_quit_counterexample :
    searchModeApp.searchMode = UI.SearchMode.SearchLocal ∧
    ¬ ((searchModeApp.handleKeyPress "q").1.searchQuery
        = searchModeApp.searchQuery ++ "q") ∧
    (searchModeApp.handleKeyPress "q").1.searchQuery = "err" ∧
    (searchModeApp.handleKeyPress "q").2 = true := by
  refine ⟨rfl, ?_, rfl, rfl⟩
  intro hcontra
  simp [searchModeApp, UI.NewApp] at hcontra
  exact absurd hcontra (by decide)

/-- C6 (amended): while the dashboard is in (local or global) search mode,
the global quit keys `q` and `ctrl+c` still quit (leaving the state
record unchanged); any other single-byte key is appended to the query;
and every key that is not single-byte and not Backspace/Enter/Escape
leaves the dashboard state unchanged. -/
theorem search_mode_key_suppression (a : UI.App) (key : String)
    (hm : a.searchMode ≠ UI.SearchMode.SearchNone) :
    ((key = "q" ∨ key = "ctrl+c") → a.handleKeyPress key = (a, true)) ∧
    (key ≠ "q" → key ≠ "ctrl+c" → key.utf8ByteSize = 1 →
      a.handleKeyPress key = ({ a with searchQuery := a.searchQuery ++ key }, false)) ∧
    (¬ key.utf8ByteSize = 1 → key ≠ "backspace" → key ≠ "enter" → key ≠ "esc" →
      (a.handleKeyPress key).1 = a) := by
  refine ⟨?_, ?_, ?_⟩
  · rintro (hq | hq) <;> subst hq <;> rfl
  · intro hq hc hb
    have hqc : ¬ ((key = "q" || key = "ctrl+c") = true) := by
      simp [hq, hc]
    unfold UI.App.handleKeyPress
    rw [if_neg hqc, if_pos hm]
    show (a.handleSearchInput key, false) = _
    have hen : key ≠ "enter" := by
      intro h
      subst h
      exact absurd hb (by decide)
    have hesc : key ≠ "esc" := by
      intro h
      subst h
      exact absurd hb (by decide)
    have hbs : key ≠ "backspace" := by
      intro h
      subst h
      exact absurd hb (by decide)
    unfold UI.App.handleSearchInput
    rw [if_neg hen, if_neg hesc, if_neg hbs, if_pos hb]
  · intro hb hbs hen hesc
    by_cases hq : (key = "q" || key = "ctrl+c") = true
    · unfold UI.App.handleKeyPress
      rw [if_pos hq]
    · unfold UI.App.handleKeyPress
      rw [if_neg hq, if_pos hm]
      show a.handleSearchInput key = a
      unfold UI.App.handleSearchInput
      rw [if_neg hen, if_neg hesc, if_neg hbs, if_neg hb]

/-- Witness for C6 (amended): in local search mode, Tab (multi-byte,
non-editing) leaves the concrete state untouched, and the letter `x`
is appended to the query. -/
theorem search_mode_key_suppression_witness :
    searchModeApp.searchMode ≠ UI.SearchMode.SearchNone ∧
    ¬ ("tab" : String).utf8ByteSize = 1 ∧
    (searchModeApp.handleKeyPress "tab").1 = searchModeApp ∧
    (searchModeApp.handleKeyPress "x")
      = ({ searchModeApp with searchQuery := searchModeApp.searchQuery ++ "x" }, false) :=
  ⟨by decide, by decide,
   (search_mode_key_suppression searchModeApp "tab" (by decide)).2.2
     (by decide) (by decide) (by decide) (by decide),
   (search_mode_key_suppression searchModeApp "x" (by decide)).2.1
     (by decide) (by decide) (by decide)⟩

/-- Looking a key up after appending bindings scans the old bindings
first. -/
lemma mapGet_append (m m' : List (String × UI.Pane)) (n : String) :
    UI.mapGet (m ++ m') n =
      (match UI.mapGet m n with
       | some v => some v
       | none => UI.mapGet m' n) := by
  induction m with
  | nil => rfl
  | cons kv rest ih =>
    obtain ⟨k, v⟩ := kv
    by_cases h : k = n <;> simp [UI.mapGet, h, ih]

/-- Updating the binding of one key only rewrites lookups of that key. -/
lemma mapGet_mapSet (m : List (String × UI.Pane)) (k : String) (f : UI.Pane → UI.Pane)
    (n : String) :
    UI.mapGet (UI.mapSet m k f) n =
      (if k = n then (UI.mapGet m n).map f else UI.mapGet m n) := by
  induction m with
  | nil => simp [UI.mapSet, UI.mapGet]
  | cons kv rest ih =>
    obtain ⟨k2, v⟩ := kv
    by_cases h1 : k2 = k
    · subst h1
      by_cases h2 : k2 = n
      · subst h2
        simp [UI.mapSet, UI.mapGet]
      · simp [UI.mapSet, UI.mapGet, h2]
    · by_cases h2 : k2 = n
      · subst h2
        have h3 : ¬ k = k2 := fun hc => h1 hc.symm
        simp [UI.mapSet, UI.mapGet, h1, h3]
      · simp [UI.mapSet, UI.mapGet, h1, h2, ih]

/-- The fieldwise conversion from an IPC entry to a log entry performed
inside `App.handleLogEntry`. -/
lemma handleLogEntry_existing_paused (a : UI.App) (e : IPC.LogEntry)
    (hex : (UI.mapGet a.panes e.Source).isSome = true) (hp : a.paused = true) :
    a.handleLogEntry e = a := by
  unfold UI.App.handleLogEntry
  simp [hex, hp, UI.App.updateLayout]

/-- A live (unpaused) entry for an existing source only updates that
source's pane. -/
lemma handleLogEntry_existing_live (a : UI.App) (e : IPC.LogEntry)
    (hex : (UI.mapGet a.panes e.Source).isSome = true) (hp : a.paused = false) :
    a.handleLogEntry e =
      { a with
        panes := UI.mapSet a.panes e.Source (fun p => p.AddEntry
          ⟨e.Timestamp, e.Source, e.Level, e.Content, e.Raw, e.Metadata⟩) } := by
  unfold UI.App.handleLogEntry
  simp [hex, hp, UI.App.updateLayout]

/-- A paused entry for a fresh source creates the pane and appends the pane
order but touches no buffer. -/
lemma handleLogEntry_new_paused (a : UI.App) (e : IPC.LogEntry)
    (hex : (UI.mapGet a.panes e.Source).isSome = false) (hp : a.paused = true) :
    a.handleLogEntry e =
      { a with
        panes := a.panes ++ [(e.Source, UI.NewPane e.Source 1000)]
        paneOrder := a.paneOrder ++ [e.Source] } := by
  unfold UI.App.handleLogEntry
  simp [hex, hp, UI.App.updateLayout]

/-- A live entry for a fresh source creates the pane, appends the pane
order, and adds the entry to the fresh pane. -/
lemma handleLogEntry_new_live (a : UI.App) (e : IPC.LogEntry)
    (hex : (UI.mapGet a.panes e.Source).isSome = false) (hp : a.paused = false) :
    a.handleLogEntry e =
      { a with
        panes := UI.mapSet (a.panes ++ [(e.Source, UI.NewPane e.Source 1000)]) e.Source
          (fun p => p.AddEntry ⟨e.Timestamp, e.Source, e.Level, e.Content, e.Raw, e.Metadata⟩)
        paneOrder := a.paneOrder ++ [e.Source] } := by
  unfold UI.App.handleLogEntry
  simp [hex, hp, UI.App.updateLayout]

/-- One handled entry appends its source to the pane order exactly when the
source is new, and preserves the correspondence between pane-map domain
and pane order. -/
lemma handleLogEntry_paneOrder (a : UI.App) (e : IPC.LogEntry)
    (hinv : ∀ n, (UI.mapGet a.panes n).isSome ↔ n ∈ a.paneOrder) :
    (a.handleLogEntry e).paneOrder =
      (if e.Source ∈ a.paneOrder then a.paneOrder else a.paneOrder ++ [e.Source]) ∧
    (∀ n, (UI.mapGet (a.handleLogEntry e).panes n).isSome ↔
      n ∈ (a.handleLogEntry e).paneOrder) := by
  rcases hex : (UI.mapGet a.panes e.Source).isSome with _ | _
  case true =>
    have hmem : e.Source ∈ a.paneOrder := (hinv e.Source).mp hex
    rcases hp : a.paused with _ | _
    case true =>
      rw [handleLogEntry_existing_paused a e hex hp]
      exact ⟨by rw [if_pos hmem], hinv⟩
    case false =>
      rw [handleLogEntry_existing_live a e hex hp]
      refine ⟨by rw [if_pos hmem], fun n => ?_⟩
      show (UI.mapGet (UI.mapSet a.panes e.Source (fun p => p.AddEntry
          ⟨e.Timestamp, e.Source, e.Level, e.Content, e.Raw, e.Metadata⟩)) n).isSome
        ↔ n ∈ a.paneOrder
      rw [mapGet_mapSet]
      by_cases hn : e.Source = n
      · simp only [if_pos hn, Option.isSome_map']
        exact hinv n
      · rw [if_neg hn]
        exact hinv n
  case false =>
    have hmem : e.Source ∉ a.paneOrder := fun hc => by
      have := (hinv e.Source).mpr hc
      rw [hex] at this
      exact Bool.false_ne_true this
    rcases hp : a.paused with _ | _
    case true =>
      rw [handleLogEntry_new_paused a e hex hp]
      refine ⟨by rw [if_neg hmem], fun n => ?_⟩
      show (UI.mapGet (a.panes ++ [(e.Source, UI.NewPane e.Source 1000)]) n).isSome
        ↔ n ∈ a.paneOrder ++ [e.Source]
      rw [mapGet_append]
      rcases hsome : UI.mapGet a.panes n with _ | p
      · have hnot : n ∉ a.paneOrder := fun hc => by
          have := (hinv n).mpr hc
          rw [hsome] at this
          exact Bool.false_ne_true this
        by_cases hn : e.Source = n <;> simp [UI.mapGet, hn, hnot]
        exact fun hc => hn hc.symm
      · have hin : n ∈ a.paneOrder := (hinv n).mp (by rw [hsome]; rfl)
        simp [hin]
    case false =>
      rw [handleLogEntry_new_live a e hex hp]
      refine ⟨by rw [if_neg hmem], fun n => ?_⟩
      show (UI.mapGet (UI.mapSet (a.panes ++ [(e.Source, UI.NewPane e.Source 1000)]) e.Source
        (fun p => p.AddEntry ⟨e.Timestamp, e.Source, e.Level, e.Content, e.Raw,
          e.Metadata⟩)) n).isSome ↔ n ∈ a.paneOrder ++ [e.Source]
      rw [mapGet_mapSet, mapGet_append]
      by_cases hn : e.Source = n
      · subst hn
        rw [if_pos rfl]
        rcases hopt : UI.mapGet a.panes e.Source with _ | p
        · simp [UI.mapGet, Option.isSome_map']
        · rw [hopt] at hex
          simp at hex
      · rw [if_neg hn]
        rcases hsome : UI.mapGet a.panes n with _ | p
        · have hnot : n ∉ a.paneOrder := fun hc => by
            have := (hinv n).mpr hc
            rw [hsome] at this
            exact Bool.false_ne_true this
          simp [UI.mapGet, hn, hnot]
          exact fun hc => hn hc.symm
        · have hin : n ∈ a.paneOrder := (hinv n).mp (by rw [hsome]; rfl)
          simp [hin]

/-- Folding a whole entry sequence extends the pane order by the
first-seen-order fold of the incoming source names, preserving the
pane-map/pane-order correspondence. -/
lemma processLogEntries_paneOrder (es : List IPC.LogEntry) (a : UI.App)
    (hinv : ∀ n, (UI.mapGet a.panes n).isSome ↔ n ∈ a.paneOrder) :
    (a.processLogEntries es).paneOrder =
      (es.map (fun e => e.Source)).foldl
        (fun acc s => if s ∈ acc then acc else acc ++ [s]) a.paneOrder ∧
    (∀ n, (UI.mapGet (a.processLogEntries es).panes n).isSome ↔
      n ∈ (a.processLogEntries es).paneOrder) := by
  induction es generalizing a with
  | nil => exact ⟨rfl, hinv⟩
  | cons e rest ih =>
    obtain ⟨hord, hinv2⟩ := handleLogEntry_paneOrder a e hinv
    obtain ⟨ho, hi⟩ := ih (a.handleLogEntry e) hinv2
    refine ⟨?_, hi⟩
    show ((a.handleLogEntry e).processLogEntries rest).paneOrder = _
    rw [ho, hord]
    simp only [List.map_cons, List.foldl_cons]

/-- The first-seen fold preserves freedom from duplicates. -/
lemma firstSeen_foldl_nodup (names : List String) (acc : List String)
    (hacc : acc.Nodup) :
    (names.foldl (fun acc s => if s ∈ acc then acc else acc ++ [s]) acc).Nodup := by
  induction names generalizing acc with
  | nil => exact hacc
  | cons s rest ih =>
    simp only [List.foldl_cons]
    by_cases h : s ∈ acc
    · rw [if_pos h]
      exact ih acc hacc
    · rw [if_neg h]
      refine ih _ ?_
      simp [List.nodup_append, hacc, h]

/-- C3: processing any entry sequence from a fresh dashboard yields exactly
one pane per distinct source name, the pane order lists the names in
first-seen order without duplicates, and a pane exists precisely for the
names in the pane order. -/
theorem pane_creation_first_seen (es : List IPC.LogEntry) :
    (UI.NewApp.processLogEntries es).paneOrder =
      UI.firstSeenOrder (es.map (fun e => e.Source)) ∧
    (UI.NewApp.processLogEntries es).paneOrder.Nodup ∧
    (∀ n, (UI.mapGet (UI.NewApp.processLogEntries es).panes n).isSome ↔
      n ∈ (UI.NewApp.processLogEntries es).paneOrder) := by
  have hinv0 : ∀ n, (UI.mapGet UI.NewApp.panes n).isSome ↔ n ∈ UI.NewApp.paneOrder := by
    intro n
    simp [UI.NewApp, UI.mapGet]
  obtain ⟨h1, h2⟩ := processLogEntries_paneOrder es UI.NewApp hinv0
  refine ⟨h1, ?_, h2⟩
  rw [h1]
  exact firstSeen_foldl_nodup _ _ List.nodup_nil

/-- C9: while paused, handling an entry adds nothing to any ring buffer
(existing panes keep their exact state and a freshly created pane's buffer
is empty), yet for an unseen source a new pane is still created and its
name appended to the pane order. -/
theorem paused_entry_creates_pane_only (a : UI.App) (e : IPC.LogEntry)
    (hp : a.paused = true) :
    (∀ n, UI.mapGet (a.handleLogEntry e).panes n =
      (if (UI.mapGet a.panes e.Source).isSome = false ∧ n = e.Source
       then some (UI.NewPane e.Source 1000)
       else UI.mapGet a.panes n)) ∧
    ((a.handleLogEntry e).paneOrder =
      (if (UI.mapGet a.panes e.Source).isSome = false
       then a.paneOrder ++ [e.Source] else a.paneOrder)) ∧
    (UI.NewPane e.Source 1000).buffer.GetAll = [] := by
  rcases hex : (UI.mapGet a.panes e.Source).isSome with _ | _
  case false =>
    have hnone : UI.mapGet a.panes e.Source = none := by
      rcases hopt : UI.mapGet a.panes e.Source with _ | p
      · rfl
      · rw [hopt] at hex
        simp at hex
    rw [handleLogEntry_new_paused a e hex hp]
    refine ⟨fun n => ?_, by simp [hex], rfl⟩
    show UI.mapGet (a.panes ++ [(e.Source, UI.NewPane e.Source 1000)]) n = _
    rw [mapGet_append]
    by_cases hn : n = e.Source
    · subst hn
      rw [hnone]
      simp [UI.mapGet, hex]
    · rcases hopt : UI.mapGet a.panes n with _ | p
      · have hne : ¬ (e.Source = n) := fun hc => hn hc.symm
        simp [UI.mapGet, hn, hne]
      · simp [hn]
  case true =>
    rw [handleLogEntry_existing_paused a e hex hp]
    refine ⟨fun n => ?_, by simp [hex], rfl⟩
    simp [hex]

/-- Witness for C9: a fresh paused dashboard receiving one entry gains the
pane (with empty buffer) and the pane order grows, while nothing is
buffered. -/
theorem paused_entry_creates_pane_only_witness :
    pausedApp.paused = true ∧
    UI.mapGet (pausedApp.handleLogEntry (sampleIPCEntry "svc" "m")).panes "svc"
      = some (UI.NewPane "svc" 1000) ∧
    (pausedApp.handleLogEntry (sampleIPCEntry "svc" "m")).paneOrder = ["svc"] ∧
    (UI.NewPane "svc" 1000).buffer.GetAll = [] := by
  obtain ⟨h1, h2, h3⟩ :=
    paused_entry_creates_pane_only pausedApp (sampleIPCEntry "svc" "m") rfl
  refine ⟨rfl, ?_, ?_, h3⟩
  · rw [h1 "svc"]
    simp [pausedApp, UI.NewApp, UI.mapGet, sampleIPCEntry]
  · rw [h2]
    simp [pausedApp, UI.NewApp, UI.mapGet, sampleIPCEntry]

/-- The chronological snapshot holds exactly `count` entries. -/
lemma getAll_length (b : Buffer α) (h : Log.BufferWF b) :
    b.GetAll.length = b.count := by
  obtain ⟨hpos, hlen, hidx, hcnt, hie⟩ := h
  unfold Buffer.GetAll
  split_ifs with h0 hlt
  · simp [h0]
  · simp only [List.length_take, hlen]
    omega
  · simp only [List.length_append, List.length_drop, List.length_take, hlen]
    omega

/-- A fresh buffer of positive size is well formed. -/
lemma bufferWF_new (α : Type) [Inhabited α] (N : Nat) (hN : 0 < N) :
    Log.BufferWF (NewBuffer α N) := by
  refine ⟨hN, by simp [NewBuffer], hN, by simp [NewBuffer], fun _ => rfl⟩

/-- A fresh buffer snapshots to the empty list. -/
lemma getAll_new (α : Type) [Inhabited α] (N : Nat) :
    (NewBuffer α N).GetAll = [] := rfl

/-- `Add` preserves buffer well-formedness. -/
lemma bufferWF_add (b : Buffer α) (e : α) (h : Log.BufferWF b) :
    Log.BufferWF (b.Add e) := by
  obtain ⟨hpos, hlen, hidx, hcnt, hie⟩ := h
  refine ⟨hpos, by simp [Buffer.Add, hlen], ?_, ?_, ?_⟩
  · show (b.index + 1) % b.size < b.size
    exact Nat.mod_lt _ hpos
  · show (if b.count < b.size then b.count + 1 else b.count) ≤ b.size
    split_ifs with hf <;> omega
  · intro hlt2
    have hc : (b.Add e).count = (if b.count < b.size then b.count + 1 else b.count) := rfl
    have hs : (b.Add e).size = b.size := rfl
    rw [hc, hs] at hlt2
    show (b.index + 1) % b.size = (b.Add e).count
    rw [hc]
    by_cases hf : b.count < b.size
    · rw [if_pos hf] at hlt2 ⊢
      rw [hie hf]
      exact Nat.mod_eq_of_lt hlt2
    · rw [if_neg hf] at hlt2
      omega

/-- The snapshot after one `Add` is the previous snapshot with the new
entry appended, truncated to the newest `size` entries. -/
lemma getAll_add (b : Buffer α) (e : α) (h : Log.BufferWF b) :
    (b.Add e).GetAll = (b.GetAll ++ [e]).drop (b.count + 1 - b.size) := by
  obtain ⟨hpos, hlen, hidx, hcnt, hie⟩ := h
  have hgadef : ∀ c : Buffer α, c.GetAll =
      (if c.count = 0 then []
       else if c.count < c.size then c.entries.take c.count
       else c.entries.drop c.index ++ c.entries.take c.index) := fun _ => rfl
  have hAe : (b.Add e).entries = b.entries.set b.index e := rfl
  have hAi : (b.Add e).index = (b.index + 1) % b.size := rfl
  have hAc : (b.Add e).count = (if b.count < b.size then b.count + 1 else b.count) := rfl
  have hAs : (b.Add e).size = b.size := rfl
  by_cases hfull : b.count < b.size
  · -- room left: the cursor sits at the count and nothing is evicted
    have hie2 : b.index = b.count := hie hfull
    have hdrop : b.count + 1 - b.size = 0 := by omega
    have hGA : b.GetAll = b.entries.take b.count := by
      rw [hgadef b]
      split_ifs with h0
      · rw [h0, List.take_zero]
      · rfl
    have hset : b.entries.set b.index e =
        b.entries.take b.count ++ e :: b.entries.drop (b.count + 1) := by
      rw [hie2]
      exact List.set_eq_take_cons_drop e (by omega)
    have hlentake : (b.entries.take b.count).length = b.count := by
      simp only [List.length_take, hlen]
      omega
    rw [hdrop, List.drop_zero, hgadef (b.Add e), hAe, hAi, hAc, hAs, if_pos hfull,
      hGA, hset]
    have hne0 : ¬ (b.count + 1 = 0) := by omega
    rw [if_neg hne0]
    by_cases h2 : b.count + 1 < b.size
    · rw [if_pos h2, List.take_append_eq_append_take, hlentake,
        List.take_of_length_le (by omega)]
      have : b.count + 1 - b.count = 1 := by omega
      rw [this]
      rfl
    · have hsz : b.count + 1 = b.size := by omega
      rw [if_neg h2, hie2]
      have hmod : (b.count + 1) % b.size = 0 := by
        rw [hsz, Nat.mod_self]
      rw [hmod, List.drop_zero, List.take_zero, List.append_nil]
      have hdropnil : b.entries.drop (b.count + 1) = [] :=
        List.drop_eq_nil_of_le (by omega)
      rw [hdropnil]
  · -- buffer full: the oldest entry is evicted
    have hsz : b.count = b.size := by omega
    have hdrop : b.count + 1 - b.size = 1 := by omega
    have hGA : b.GetAll = b.entries.drop b.index ++ b.entries.take b.index := by
      rw [hgadef b]
      rw [if_neg (by omega), if_neg hfull]
    have hset : b.entries.set b.index e =
        b.entries.take b.index ++ e :: b.entries.drop (b.index + 1) := by
      exact List.set_eq_take_cons_drop e (by omega)
    have hlentake : (b.entries.take b.index).length = b.index := by
      simp only [List.length_take, hlen]
      omega
    have hlendrop : (b.entries.drop b.index).length = b.size - b.index := by
      simp only [List.length_drop, hlen]
    have hRHS : ((b.entries.drop b.index ++ b.entries.take b.index) ++ [e]).drop 1 =
        b.entries.drop (b.index + 1) ++ (b.entries.take b.index ++ [e]) := by
      rw [List.append_assoc, List.drop_append_eq_append_drop, hlendrop,
        List.drop_drop]
      have h10 : 1 - (b.size - b.index) = 0 := by omega
      rw [h10, List.drop_zero, Nat.add_comm]
    rw [hdrop, hGA, hRHS, hgadef (b.Add e), hAe, hAi, hAc, hAs, if_neg hfull]
    rw [if_neg (by omega : ¬ (b.count = 0)), if_neg (by omega : ¬ (b.count < b.size))]
    have htake : (b.entries.set b.index e).take (b.index + 1) =
        b.entries.take b.index ++ [e] := by
      rw [hset, List.take_append_eq_append_take, hlentake,
        List.take_of_length_le (by omega)]
      have : b.index + 1 - b.index = 1 := by omega
      rw [this]
      rfl
    by_cases h2 : b.index + 1 < b.size
    · have hmod : (b.index + 1) % b.size = b.index + 1 := Nat.mod_eq_of_lt h2
      rw [hmod, htake]
      have hdropset : (b.entries.set b.index e).drop (b.index + 1) =
          b.entries.drop (b.index + 1) := by
        rw [hset, List.drop_append_eq_append_drop, hlentake]
        have h1 : (b.entries.take b.index).drop (b.index + 1) = [] :=
          List.drop_eq_nil_of_le (by omega)
        have h2' : b.index + 1 - b.index = 1 := by omega
        rw [h1, h2', List.nil_append]
        rfl
      rw [hdropset]
    · have hiz : b.index + 1 = b.size := by omega
      have hmod : (b.index + 1) % b.size = 0 := by
        rw [hiz, Nat.mod_self]
      rw [hmod, List.drop_zero, List.take_zero, List.append_nil, hset]
      have hdropnil : b.entries.drop (b.index + 1) = [] :=
        List.drop_eq_nil_of_le (by omega)
      rw [hdropnil, List.nil_append]

/-- Appending one entry to the insertion sequence adds it last. -/
lemma addAll_append (b : Buffer α) (es : List α) (e : α) :
    b.AddAll (es ++ [e]) = (b.AddAll es).Add e := by
  unfold Buffer.AddAll
  rw [List.foldl_append]
  rfl

/-- `AddAll` preserves buffer well-formedness. -/
lemma bufferWF_addAll (b : Buffer α) (es : List α) (h : Log.BufferWF b) :
    Log.BufferWF (b.AddAll es) := by
  induction es generalizing b with
  | nil => exact h
  | cons e rest ih => exact ih (b.Add e) (bufferWF_add b e h)

/-- `AddAll` never changes the allocated size. -/
lemma size_addAll (b : Buffer α) (es : List α) : (b.AddAll es).size = b.size := by
  induction es generalizing b with
  | nil => rfl
  | cons e rest ih => exact ih (b.Add e)

/-- Truncating to the newest `N` elements commutes with appending one
element. -/
lemma drop_append_singleton_drop (N : Nat) (hN : 0 < N) (es : List α) (e : α) :
    (es.drop (es.length - N) ++ [e]).drop ((es.drop (es.length - N)).length + 1 - N)
      = (es ++ [e]).drop (es.length + 1 - N) := by
  rcases le_or_lt es.length N with hle | hlt
  · rw [Nat.sub_eq_zero_of_le hle, List.drop_zero]
  · have hlen2 : (es.drop (es.length - N)).length = N := by
      simp only [List.length_drop]
      omega
    rw [hlen2]
    have h1 : N + 1 - N = 1 := by omega
    rw [h1]
    rw [List.drop_append_of_le_length (by omega : 1 ≤ (es.drop (es.length - N)).length)]
    rw [List.drop_drop]
    rw [List.drop_append_of_le_length (by omega : es.length + 1 - N ≤ es.length)]
    have harith : es.length - N + 1 = es.length + 1 - N := by omega
    rw [harith]

/-- C1: inserting any sequence of entries into a fresh ring buffer of
positive capacity `N` and snapshotting yields exactly the last `N` entries
(all of them when fewer were inserted) in original insertion order,
regardless of how often the backing store wrapped. -/
theorem ring_buffer_getAll_lastN (α : Type) [Inhabited α] (N : Nat) (es : List α)
    (hN : 0 < N) :
    ((NewBuffer α N).AddAll es).GetAll = es.drop (es.length - N) := by
  induction es using List.reverseRecOn with
  | nil => simp [Buffer.AddAll, getAll_new]
  | append_singleton es e ih =>
    rw [addAll_append]
    have hwf : Log.BufferWF ((NewBuffer α N).AddAll es) :=
      bufferWF_addAll _ _ (bufferWF_new α N hN)
    rw [getAll_add _ e hwf]
    have hcnt : ((NewBuffer α N).AddAll es).count
        = ((NewBuffer α N).AddAll es).GetAll.length := (getAll_length _ hwf).symm
    have hsz : ((NewBuffer α N).AddAll es).size = N := size_addAll _ _
    rw [hcnt, ih, hsz]
    have hlast : (es ++ [e]).length - N = es.length + 1 - N := by simp
    rw [hlast]
    exact drop_append_singleton_drop N hN es e

/-- Witness for C1: capacity 2, three insertions; the snapshot is the last
two entries in order. -/
theorem ring_buffer_getAll_lastN_witness :
    (0 : Nat) < 2 ∧
    ((NewBuffer Nat 2).AddAll [10, 20, 30]).GetAll
      = [10, 20, 30].drop ([10, 20, 30].length - 2) :=
  ⟨by decide, ring_buffer_getAll_lastN Nat 2 [10, 20, 30] (by decide)⟩

/-- Counterexample to C5 as stated: on the scenario line the produced
entry's metadata is not free of the alias keys — the original alias keys
`msg` and `ts` are copied into metadata (only the normalized keys
`timestamp`/`message`/`level` are excluded, and the alias `level`
coincides with a normalized key). -/
theorem json_scenario_metadata_counterexample :
    ¬ (jget jsonScenarioEntry.Metadata "msg" = none ∧
       jget jsonScenarioEntry.Metadata "ts" = none) := by
  intro hcontra
  have h1 : jget jsonScenarioEntry.Metadata "msg" = some (JValue.jstr "cache miss") := by
    decide
  rw [h1] at hcontra
  exact Option.some_ne_none _ hcontra.1

/-- C5 (amended): the scenario line classifies to level WARN, content
`cache miss` and timestamp 2024-01-01T00:00:00Z; metadata holds no entry
under the normalized keys `timestamp`, `message`, `level` (so none under
the alias `level`, which equals a normalized key), but it retains the
original alias keys `msg` and `ts` with their raw values. -/
theorem json_scenario_classification :
    jsonScenarioEntry.Level = LogLevelWarn ∧
    jsonScenarioEntry.Content = "cache miss" ∧
    jsonScenarioEntry.Timestamp = ⟨2024, 1, 1, 0, 0, 0, 0, 0⟩ ∧
    jget jsonScenarioEntry.Metadata "level" = none ∧
    jget jsonScenarioEntry.Metadata "timestamp" = none ∧
    jget jsonScenarioEntry.Metadata "message" = none ∧
    jget jsonScenarioEntry.Metadata "msg" = some (JValue.jstr "cache miss") ∧
    jget jsonScenarioEntry.Metadata "ts"
      = some (JValue.jstr "2024-01-01T00:00:00Z") := by
  decide

end ClaimTheorems

end LogFlow
